import Mathlib

/-
Shallow embedding of the polkit hash table (src/polkit/polkit-hash.c) and the
action object (src/libpolkit/libpolkit-action.c).

Modelling conventions:
- `void *` keys are modelled by a type parameter `K`; `void *` values by
  `Option V`, with `none` standing for a NULL value pointer (a legal stored
  value, and also the return of a failed lookup).
- The caller supplied destructor function pointers are modelled by two
  booleans recording whether the pointer is non NULL; every invocation of a
  destructor is recorded as a `DestroyEvent` in an event trace, in the order
  the C code performs the calls.
- Heap allocation of the new node in `polkit_hash_insert` may fail in C
  (`p_new0` returning NULL); the embedding threads an explicit `allocOk`
  flag for the outcome of that single allocation.
- A bucket chain (`PolKitHashNode *` linked by `next`) is a `List` of nodes;
  the array `top_nodes` of length `num_top_nodes` is a list of chains.
- C functions that take a possibly NULL table pointer are additionally
  embedded as `_c` wrappers over `Option` handles, distinguishing a
  `g_return_if_fail` style contract check from an unchecked dereference of
  a NULL handle.
-/

/-- One entry of a bucket chain: the C struct `PolKitHashNode` (`key`,
`value`, `next`); the `next` pointer is the tail of the enclosing list. -/
structure PolKitHashNode (K V : Type) where
  key : K
  value : Option V
  deriving DecidableEq, Repr

/-- A recorded invocation of a caller supplied destructor callback. -/
inductive DestroyEvent (K V : Type) where
  | key (k : K)
  | value (v : Option V)
  deriving DecidableEq, Repr

/-- The C struct `PolKitHash`: refcount, bucket array and the four caller
supplied callbacks (the two destructors reduced to set or not set). -/
structure PolKitHash (K V : Type) where
  refcount : Nat
  num_top_nodes : Nat
  top_nodes : List (List (PolKitHashNode K V))
  hash_func : K → Nat
  key_equal_func : K → K → Bool
  key_destroy_func : Bool
  value_destroy_func : Bool

/-- `polkit_hash_new` (success path): refcount 1, 11 empty buckets, the
callbacks stored. -/
def polkit_hash_new {K V : Type} (hash_func : K → Nat)
    (key_equal_func : K → K → Bool)
    (key_destroy_func value_destroy_func : Bool) : PolKitHash K V where
  refcount := 1
  num_top_nodes := 11
  top_nodes := List.replicate 11 []
  hash_func := hash_func
  key_equal_func := key_equal_func
  key_destroy_func := key_destroy_func
  value_destroy_func := value_destroy_func

/-- `polkit_hash_ref` on a non NULL table: increment the refcount, return
the same table. -/
def polkit_hash_ref {K V : Type} (hash : PolKitHash K V) : PolKitHash K V :=
  { hash with refcount := hash.refcount + 1 }

/-- The destructor invocations performed on one bucket chain by the
teardown loop of `polkit_hash_unref`: for each node, key destructor first
(if set), then value destructor (if set). -/
def chainDestroyEvents {K V : Type} (kd vd : Bool) :
    List (PolKitHashNode K V) → List (DestroyEvent K V)
  | [] => []
  | node :: rest =>
      (if kd then [DestroyEvent.key node.key] else []) ++
      (if vd then [DestroyEvent.value node.value] else []) ++
      chainDestroyEvents kd vd rest

/-- `polkit_hash_unref` on a non NULL table: decrement the refcount; while
it stays positive nothing else happens; when it reaches zero every bucket
is drained (key destructor, value destructor, free node) and the table is
freed (`none`). The second component is the destructor event trace. -/
def polkit_hash_unref {K V : Type} (hash : PolKitHash K V) :
    Option (PolKitHash K V) × List (DestroyEvent K V) :=
  let rc := hash.refcount - 1
  if rc > 0 then (some { hash with refcount := rc }, [])
  else (none,
    (hash.top_nodes.map
      (chainDestroyEvents hash.key_destroy_func hash.value_destroy_func)).flatten)

/-- The scan loop of `polkit_hash_insert` over one bucket chain: at the
first node whose key matches per `equal`, destroy the old key and value
(per the destructor flags) and overwrite the node with the new key and
value, returning the updated chain and the destructor events; return
`none` when no node matches (the C loop falls through to allocation). -/
def insertChain {K V : Type} (equal : K → K → Bool) (kd vd : Bool)
    (key : K) (value : Option V) :
    List (PolKitHashNode K V) →
    Option (List (PolKitHashNode K V) × List (DestroyEvent K V))
  | [] => none
  | node :: rest =>
      if equal key node.key then
        some ({ key := key, value := value } :: rest,
          (if kd then [DestroyEvent.key node.key] else []) ++
          (if vd then [DestroyEvent.value node.value] else []))
      else
        match insertChain equal kd vd key value rest with
        | some (rest', events) => some (node :: rest', events)
        | none => none

/-- The bucket index `hash_func (key) % num_top_nodes` computed by insert
and lookup. -/
def bucketOf {K V : Type} (hash : PolKitHash K V) (key : K) : Nat :=
  hash.hash_func key % hash.num_top_nodes

/-- The chain of the bucket a key hashes to. -/
def bucketChain {K V : Type} (hash : PolKitHash K V) (key : K) :
    List (PolKitHashNode K V) :=
  hash.top_nodes.getD (bucketOf hash key) []

/-- `polkit_hash_insert` on a non NULL table. Scan the chain of the
bucket the key hashes to; on a match replace key and value in place
(destroying the old ones) and return TRUE; otherwise allocate a new node
(outcome `allocOk`), append it at the tail of the chain and return TRUE,
or return FALSE with nothing changed when the allocation fails. Result:
(return value, table after the call, destructor event trace). -/
def polkit_hash_insert {K V : Type} (hash : PolKitHash K V) (key : K)
    (value : Option V) (allocOk : Bool) :
    Bool × PolKitHash K V × List (DestroyEvent K V) :=
  let bucket := bucketOf hash key
  let chain := hash.top_nodes.getD bucket []
  match insertChain hash.key_equal_func hash.key_destroy_func
      hash.value_destroy_func key value chain with
  | some (chain', events) =>
      (true, { hash with top_nodes := hash.top_nodes.set bucket chain' }, events)
  | none =>
      if allocOk then
        (true, { hash with
          top_nodes := hash.top_nodes.set bucket
            (chain ++ [{ key := key, value := value }]) }, [])
      else
        (false, hash, [])

/-- The scan loop of `polkit_hash_lookup` over one bucket chain: value and
found flag of the first matching node, or (NULL, FALSE). -/
def lookupChain {K V : Type} (equal : K → K → Bool) (key : K) :
    List (PolKitHashNode K V) → Option V × Bool
  | [] => (none, false)
  | node :: rest =>
      if equal key node.key then (node.value, true)
      else lookupChain equal key rest

/-- `polkit_hash_lookup` on a non NULL table. `found_supplied` records
whether the caller passed a non NULL `found` out parameter; the second
component is the flag written through it (`none` when no pointer was
supplied and the store is skipped). -/
def polkit_hash_lookup {K V : Type} (hash : PolKitHash K V) (key : K)
    (found_supplied : Bool) : Option V × Option Bool :=
  let r := lookupChain hash.key_equal_func key
    (hash.top_nodes.getD (bucketOf hash key) [])
  (r.1, if found_supplied then some r.2 else none)

/-- `polkit_hash_ref` iterated N times. -/
def refIter {K V : Type} : Nat → PolKitHash K V → PolKitHash K V
  | 0, h => h
  | n + 1, h => refIter n (polkit_hash_ref h)

/-- `polkit_hash_unref` iterated: stop once the table has been freed;
accumulate the destructor event traces in order. -/
def unrefIter {K V : Type} : Nat → PolKitHash K V →
    Option (PolKitHash K V) × List (DestroyEvent K V)
  | 0, h => (some h, [])
  | n + 1, h =>
      match polkit_hash_unref h with
      | (some h', events) =>
          let r := unrefIter n h'
          (r.1, events ++ r.2)
      | (none, events) => (none, events)

/-- A sequence of `polkit_hash_insert` calls, each with a successful node
allocation. -/
def insertList {K V : Type} (h : PolKitHash K V) :
    List (K × Option V) → PolKitHash K V
  | [] => h
  | p :: rest => insertList (polkit_hash_insert h p.1 p.2 true).2.1 rest

/-- Whether every call in a sequence of `polkit_hash_insert` calls (each
with a successful node allocation) returned TRUE. -/
def insertListAllOk {K V : Type} (h : PolKitHash K V) :
    List (K × Option V) → Bool
  | [] => true
  | p :: rest =>
      (polkit_hash_insert h p.1 p.2 true).1 &&
      insertListAllOk (polkit_hash_insert h p.1 p.2 true).2.1 rest

/-- Structural well formedness: the bucket array really has
`num_top_nodes` entries and there is at least one bucket. Holds for every
table built by `polkit_hash_new` and is preserved by insert. -/
def WF {K V : Type} (h : PolKitHash K V) : Prop :=
  h.top_nodes.length = h.num_top_nodes ∧ 0 < h.num_top_nodes

/-- No node in the bucket the key hashes to matches the key per the
equality callback (the key is absent from the table as insert and lookup
see it). -/
def Fresh {K V : Type} (h : PolKitHash K V) (key : K) : Prop :=
  ∀ nd ∈ bucketChain h key, h.key_equal_func key nd.key = false

/-- Every live node sits in the bucket its key hashes to: whatever bucket
slot a node is found in, that slot index is the hash of its key modulo
the bucket count. -/
def Placed {K V : Type} (h : PolKitHash K V) : Prop :=
  ∀ (b : Nat), ∀ nd ∈ h.top_nodes.getD b [],
    h.hash_func nd.key % h.num_top_nodes = b

/-- No two distinct nodes of one chain carry keys that the equality
callback relates, in either argument order. -/
def ChainNoDup {K V : Type} (equal : K → K → Bool)
    (c : List (PolKitHashNode K V)) : Prop :=
  c.Pairwise (fun n1 n2 =>
    equal n1.key n2.key = false ∧ equal n2.key n1.key = false)

/-- `ChainNoDup` for every bucket chain of the table. -/
def TableNoDup {K V : Type} (h : PolKitHash K V) : Prop :=
  ∀ (b : Nat), ChainNoDup h.key_equal_func (h.top_nodes.getD b [])

/-- Outcome of calling one of the C entry points through a possibly NULL
pointer argument: normal execution, an early return from a
`g_return_if_fail` style contract check, or an unchecked dereference of
the NULL pointer (undefined behaviour). -/
inductive CCall (α : Type) where
  | ok (a : α)
  | checkFailed (a : α)
  | nullDeref
  deriving DecidableEq

/-- `polkit_hash_new` with possibly NULL callback arguments: the two
`g_return_val_if_fail` checks on `hash_func` and `key_equal_func`. -/
def polkit_hash_new_c {K V : Type} (hash_func : Option (K → Nat))
    (key_equal_func : Option (K → K → Bool))
    (key_destroy_func value_destroy_func : Bool) :
    CCall (Option (PolKitHash K V)) :=
  match hash_func with
  | none => CCall.checkFailed none
  | some hf =>
      match key_equal_func with
      | none => CCall.checkFailed none
      | some ef =>
          CCall.ok (some (polkit_hash_new hf ef key_destroy_func value_destroy_func))

/-- `polkit_hash_ref` with a possibly NULL handle:
`g_return_val_if_fail (hash != NULL, hash)` returns the NULL handle back
after reporting. -/
def polkit_hash_ref_c {K V : Type} :
    Option (PolKitHash K V) → CCall (Option (PolKitHash K V))
  | none => CCall.checkFailed none
  | some h => CCall.ok (some (polkit_hash_ref h))

/-- `polkit_hash_unref` with a possibly NULL handle:
`g_return_if_fail (hash != NULL)` returns early after reporting. -/
def polkit_hash_unref_c {K V : Type} :
    Option (PolKitHash K V) →
    CCall (Option (PolKitHash K V) × List (DestroyEvent K V))
  | none => CCall.checkFailed (none, [])
  | some h => CCall.ok (polkit_hash_unref h)

/-- `polkit_hash_insert` with a possibly NULL handle: the function has no
NULL check and its first statement `hash->hash_func (key)` dereferences
the handle. -/
def polkit_hash_insert_c {K V : Type} (hash : Option (PolKitHash K V))
    (key : K) (value : Option V) (allocOk : Bool) :
    CCall (Bool × PolKitHash K V × List (DestroyEvent K V)) :=
  match hash with
  | none => CCall.nullDeref
  | some h => CCall.ok (polkit_hash_insert h key value allocOk)

/-- `polkit_hash_lookup` with a possibly NULL handle: the function has no
NULL check and its first statement `hash->hash_func (key)` dereferences
the handle. -/
def polkit_hash_lookup_c {K V : Type} (hash : Option (PolKitHash K V))
    (key : K) (found_supplied : Bool) : CCall (Option V × Option Bool) :=
  match hash with
  | none => CCall.nullDeref
  | some h => CCall.ok (polkit_hash_lookup h key found_supplied)

/-
The action object of src/libpolkit/libpolkit-action.c.
-/

/-- The C struct `PolKitAction`: refcount and a possibly NULL action
identifier string. -/
structure PolKitAction where
  refcount : Nat
  id : Option String
  deriving DecidableEq, Repr

/-- `libpolkit_action_new`: `g_new0` zero fills, so the id starts NULL. -/
def libpolkit_action_new : PolKitAction where
  refcount := 1
  id := none

/-- `libpolkit_action_set_action_id`: free the old id when it is non NULL
(recorded as the returned list of freed strings), then store
`g_strdup (action_id)`, which is NULL for a NULL argument. -/
def libpolkit_action_set_action_id (action : PolKitAction)
    (action_id : Option String) : PolKitAction × List String :=
  ({ action with id := action_id },
   match action.id with
   | some s => [s]
   | none => [])

/-- `libpolkit_action_get_action_id`: FALSE with the out parameter not
written (`none`) when the stored id is NULL, else TRUE with the stored
id written through the out parameter. -/
def libpolkit_action_get_action_id (action : PolKitAction) :
    Bool × Option String :=
  match action.id with
  | none => (false, none)
  | some s => (true, some s)

/-- Pairwise logical distinctness of the keys of an insert sequence under
an equality callback, in both argument orders. -/
abbrev KeysDistinct {K V : Type} (equal : K → K → Bool)
    (ps : List (K × Option V)) : Prop :=
  ps.Pairwise (fun p q => equal p.1 q.1 = false ∧ equal q.1 p.1 = false)

/-- The table reached from `polkit_hash_new` by a sequence of successful
`polkit_hash_insert` calls. -/
def tableFromInserts {K V : Type} (hash_fn : K → Nat)
    (equal_fn : K → K → Bool) (kd vd : Bool)
    (ps : List (K × Option V)) : PolKitHash K V :=
  insertList (polkit_hash_new hash_fn equal_fn kd vd) ps

/-- A concrete table used by several witnesses: natural number keys and
values, identity hash, boolean equality, both destructors set. -/
def baseTable : PolKitHash Nat Nat :=
  polkit_hash_new (fun k => k) (fun a b => a == b) true true

/-- A concrete table holding key 4 with value 9. -/
def tableWith4 : PolKitHash Nat Nat :=
  (polkit_hash_insert baseTable 4 (some 9) true).2.1

/-
Generic list helpers.
-/

theorem getD_set_self {α : Type} (l : List α) (i : Nat) (x d : α)
    (h : i < l.length) : (l.set i x).getD i d = x := by
  simp [List.getD_eq_getElem?_getD, List.getElem?_set_self h]

theorem getD_set_ne {α : Type} (l : List α) (i j : Nat) (x d : α)
    (h : i ≠ j) : (l.set i x).getD j d = l.getD j d := by
  simp [List.getD_eq_getElem?_getD, List.getElem?_set_ne h]

/-
Structural lemmas about the chain scan of insert.
-/

theorem insertChain_eq_none_iff {K V : Type} (equal : K → K → Bool)
    (kd vd : Bool) (key : K) (value : Option V)
    (c : List (PolKitHashNode K V)) :
    insertChain equal kd vd key value c = none ↔
      ∀ nd ∈ c, equal key nd.key = false := by
  induction c with
  | nil => simp [insertChain]
  | cons node rest ih =>
      by_cases hk : equal key node.key
      · simp [insertChain, hk]
      · have hk' : equal key node.key = false := by simpa using hk
        cases hr : insertChain equal kd vd key value rest with
        | none =>
            simp [insertChain, hk', hr]
            exact ih.mp hr
        | some p =>
            constructor
            · intro hcontra
              simp [insertChain, hk', hr] at hcontra
            · intro hall
              exact absurd (ih.mpr fun nd hnd => hall nd (List.mem_cons_of_mem _ hnd))
                (by simp [hr])

theorem insertChain_eq_some {K V : Type} (equal : K → K → Bool)
    (kd vd : Bool) (key : K) (value : Option V)
    (c chain' : List (PolKitHashNode K V)) (events : List (DestroyEvent K V))
    (hc : insertChain equal kd vd key value c = some (chain', events)) :
    ∃ c₁ nd₀ c₂, c = c₁ ++ nd₀ :: c₂ ∧
      (∀ nd ∈ c₁, equal key nd.key = false) ∧
      equal key nd₀.key = true ∧
      chain' = c₁ ++ { key := key, value := value } :: c₂ ∧
      events = (if kd then [DestroyEvent.key nd₀.key] else []) ++
               (if vd then [DestroyEvent.value nd₀.value] else []) := by
  induction c generalizing chain' events with
  | nil => simp [insertChain] at hc
  | cons node rest ih =>
      by_cases hk : equal key node.key
      · refine ⟨[], node, rest, by simp, by simp, hk, ?_, ?_⟩ <;>
          simp [insertChain, hk] at hc
        · exact hc.1.symm
        · exact hc.2.symm
      · simp only [insertChain, hk, if_neg, Bool.false_eq_true, ite_false] at hc
        cases hr : insertChain equal kd vd key value rest with
        | none => simp [hr] at hc
        | some p =>
            obtain ⟨rest', ev⟩ := p
            simp only [hr] at hc
            obtain ⟨h1, h2⟩ := Prod.mk.injEq .. ▸ Option.some.injEq .. ▸ hc
            obtain ⟨c₁, nd₀, c₂, hrest, hmiss, hhit, hrest', hev⟩ := ih rest' ev hr
            refine ⟨node :: c₁, nd₀, c₂, by simp [hrest], ?_, hhit, ?_, ?_⟩
            · intro nd hnd
              rcases List.mem_cons.mp hnd with h | h
              · simpa [h] using (Bool.not_eq_true _).mp hk
              · exact hmiss nd h
            · simp [← h1, hrest']
            · simp [← h2, hev]

theorem insertChain_of_decomp {K V : Type} (equal : K → K → Bool)
    (kd vd : Bool) (key : K) (value : Option V)
    (c₁ : List (PolKitHashNode K V)) (nd₀ : PolKitHashNode K V)
    (c₂ : List (PolKitHashNode K V))
    (hmiss : ∀ nd ∈ c₁, equal key nd.key = false)
    (hhit : equal key nd₀.key = true) :
    insertChain equal kd vd key value (c₁ ++ nd₀ :: c₂) =
      some (c₁ ++ { key := key, value := value } :: c₂,
        (if kd then [DestroyEvent.key nd₀.key] else []) ++
        (if vd then [DestroyEvent.value nd₀.value] else [])) := by
  induction c₁ with
  | nil => simp [insertChain, hhit]
  | cons node rest ih =>
      have hn : equal key node.key = false := hmiss node (by simp)
      have := ih (fun nd hnd => hmiss nd (by simp [hnd]))
      simp [insertChain, hn, this]

/-
Structural lemmas about the chain scan of lookup.
-/

theorem lookupChain_of_all_miss {K V : Type} (equal : K → K → Bool) (key : K)
    (c : List (PolKitHashNode K V)) (h : ∀ nd ∈ c, equal key nd.key = false) :
    lookupChain equal key c = (none, false) := by
  induction c with
  | nil => simp [lookupChain]
  | cons node rest ih =>
      have hn : equal key node.key = false := h node (by simp)
      simp [lookupChain, hn, ih (fun nd hnd => h nd (by simp [hnd]))]

theorem lookupChain_of_decomp {K V : Type} (equal : K → K → Bool) (key : K)
    (c₁ : List (PolKitHashNode K V)) (nd₀ : PolKitHashNode K V)
    (c₂ : List (PolKitHashNode K V))
    (hmiss : ∀ nd ∈ c₁, equal key nd.key = false)
    (hhit : equal key nd₀.key = true) :
    lookupChain equal key (c₁ ++ nd₀ :: c₂) = (nd₀.value, true) := by
  induction c₁ with
  | nil => simp [lookupChain, hhit]
  | cons node rest ih =>
      have hn : equal key node.key = false := hmiss node (by simp)
      simp [lookupChain, hn, ih (fun nd hnd => hmiss nd (by simp [hnd]))]

theorem lookupChain_snd_false_iff {K V : Type} (equal : K → K → Bool)
    (key : K) (c : List (PolKitHashNode K V)) :
    (lookupChain equal key c).2 = false ↔ ∀ nd ∈ c, equal key nd.key = false := by
  induction c with
  | nil => simp [lookupChain]
  | cons node rest ih =>
      by_cases hk : equal key node.key
      · simp [lookupChain, hk]
      · simp only [Bool.not_eq_true] at hk
        simp [lookupChain, hk, ih]

theorem lookupChain_found_decomp {K V : Type} (equal : K → K → Bool)
    (key : K) (c : List (PolKitHashNode K V))
    (h : (lookupChain equal key c).2 = true) :
    ∃ c₁ nd₀ c₂, c = c₁ ++ nd₀ :: c₂ ∧
      (∀ nd ∈ c₁, equal key nd.key = false) ∧
      equal key nd₀.key = true ∧
      (lookupChain equal key c).1 = nd₀.value := by
  induction c with
  | nil => simp [lookupChain] at h
  | cons node rest ih =>
      by_cases hk : equal key node.key
      · exact ⟨[], node, rest, by simp, by simp, hk, by simp [lookupChain, hk]⟩
      · simp only [Bool.not_eq_true] at hk
        simp only [lookupChain, hk, Bool.false_eq_true, ite_false] at h ⊢
        obtain ⟨c₁, nd₀, c₂, hrest, hmiss, hhit, hval⟩ := ih h
        refine ⟨node :: c₁, nd₀, c₂, by simp [hrest], ?_, hhit, hval⟩
        intro nd hnd
        rcases List.mem_cons.mp hnd with h' | h'
        · simpa [h'] using hk
        · exact hmiss nd h'

theorem lookupChain_append {K V : Type} (equal : K → K → Bool) (key : K)
    (c₁ c₂ : List (PolKitHashNode K V)) :
    lookupChain equal key (c₁ ++ c₂) =
      if (lookupChain equal key c₁).2 = true then lookupChain equal key c₁
      else lookupChain equal key c₂ := by
  induction c₁ with
  | nil => simp [lookupChain]
  | cons node rest ih =>
      by_cases hk : equal key node.key
      · simp [lookupChain, hk]
      · have hk' : equal key node.key = false := by simpa using hk
        simp [lookupChain, hk', ih]

theorem lookupChain_eq_of_snd_false {K V : Type} (equal : K → K → Bool)
    (key : K) (c : List (PolKitHashNode K V))
    (h : (lookupChain equal key c).2 = false) :
    lookupChain equal key c = (none, false) :=
  lookupChain_of_all_miss equal key c ((lookupChain_snd_false_iff equal key c).mp h)

/-
Case analysis of `polkit_hash_insert` at the table level.
-/

theorem insert_of_scan_some {K V : Type} (h : PolKitHash K V) (key : K)
    (value : Option V) (allocOk : Bool)
    (chain' : List (PolKitHashNode K V)) (events : List (DestroyEvent K V))
    (hc : insertChain h.key_equal_func h.key_destroy_func h.value_destroy_func
      key value (bucketChain h key) = some (chain', events)) :
    polkit_hash_insert h key value allocOk =
      (true, { h with top_nodes := h.top_nodes.set (bucketOf h key) chain' },
        events) := by
  simp only [polkit_hash_insert, bucketChain] at hc ⊢
  rw [hc]

theorem insert_of_scan_none_alloc {K V : Type} (h : PolKitHash K V) (key : K)
    (value : Option V)
    (hc : insertChain h.key_equal_func h.key_destroy_func h.value_destroy_func
      key value (bucketChain h key) = none) :
    polkit_hash_insert h key value true =
      (true, { h with
          top_nodes := h.top_nodes.set (bucketOf h key)
            (bucketChain h key ++ [{ key := key, value := value }]) }, []) := by
  simp only [polkit_hash_insert, bucketChain] at hc ⊢
  rw [hc]
  simp

theorem insert_of_scan_none_oom {K V : Type} (h : PolKitHash K V) (key : K)
    (value : Option V)
    (hc : insertChain h.key_equal_func h.key_destroy_func h.value_destroy_func
      key value (bucketChain h key) = none) :
    polkit_hash_insert h key value false = (false, h, []) := by
  simp only [polkit_hash_insert, bucketChain] at hc ⊢
  rw [hc]
  rfl

theorem insert_fields {K V : Type} (h : PolKitHash K V) (key : K)
    (value : Option V) (allocOk : Bool) :
    (polkit_hash_insert h key value allocOk).2.1.num_top_nodes = h.num_top_nodes ∧
    (polkit_hash_insert h key value allocOk).2.1.hash_func = h.hash_func ∧
    (polkit_hash_insert h key value allocOk).2.1.key_equal_func = h.key_equal_func ∧
    (polkit_hash_insert h key value allocOk).2.1.key_destroy_func = h.key_destroy_func ∧
    (polkit_hash_insert h key value allocOk).2.1.value_destroy_func = h.value_destroy_func ∧
    (polkit_hash_insert h key value allocOk).2.1.refcount = h.refcount ∧
    (polkit_hash_insert h key value allocOk).2.1.top_nodes.length = h.top_nodes.length := by
  cases hc : insertChain h.key_equal_func h.key_destroy_func h.value_destroy_func
      key value (bucketChain h key) with
  | some p =>
      obtain ⟨c', ev⟩ := p
      simp [insert_of_scan_some h key value allocOk c' ev hc]
  | none =>
      cases allocOk with
      | false => simp [insert_of_scan_none_oom h key value hc]
      | true => simp [insert_of_scan_none_alloc h key value hc]

theorem insert_WF {K V : Type} (h : PolKitHash K V) (key : K)
    (value : Option V) (allocOk : Bool) (hwf : WF h) :
    WF (polkit_hash_insert h key value allocOk).2.1 := by
  obtain ⟨hnum, _, _, _, _, _, hlen⟩ := insert_fields h key value allocOk
  exact ⟨by rw [hlen, hnum]; exact hwf.1, by rw [hnum]; exact hwf.2⟩

theorem insert_alloc_ok_returns_true {K V : Type} (h : PolKitHash K V)
    (key : K) (value : Option V) :
    (polkit_hash_insert h key value true).1 = true := by
  cases hc : insertChain h.key_equal_func h.key_destroy_func h.value_destroy_func
      key value (bucketChain h key) with
  | some p =>
      obtain ⟨c', ev⟩ := p
      simp [insert_of_scan_some h key value true c' ev hc]
  | none => simp [insert_of_scan_none_alloc h key value hc]

theorem insertListAllOk_eq_true {K V : Type} (ps : List (K × Option V)) :
    ∀ h : PolKitHash K V, insertListAllOk h ps = true := by
  induction ps with
  | nil => intro h; rfl
  | cons p rest ih =>
      intro h
      simp [insertListAllOk, insert_alloc_ok_returns_true, ih]

theorem bucketOf_lt {K V : Type} (h : PolKitHash K V) (key : K) (hwf : WF h) :
    bucketOf h key < h.top_nodes.length := by
  rw [hwf.1]
  exact Nat.mod_lt _ hwf.2

/-
Tables built by polkit_hash_new.
-/

theorem WF_new {K V : Type} (hash_fn : K → Nat) (equal_fn : K → K → Bool)
    (kd vd : Bool) : WF (polkit_hash_new (V := V) hash_fn equal_fn kd vd) := by
  constructor <;> simp [polkit_hash_new, WF]

theorem bucketChain_new {K V : Type} (hash_fn : K → Nat)
    (equal_fn : K → K → Bool) (kd vd : Bool) (key : K) :
    bucketChain (polkit_hash_new (V := V) hash_fn equal_fn kd vd) key = [] := by
  simp only [bucketChain, polkit_hash_new, List.getD_eq_getElem?_getD,
    List.getElem?_replicate]
  split <;> rfl

theorem fresh_new {K V : Type} (hash_fn : K → Nat) (equal_fn : K → K → Bool)
    (kd vd : Bool) (key : K) :
    Fresh (polkit_hash_new (V := V) hash_fn equal_fn kd vd) key := by
  intro nd hnd
  rw [bucketChain_new] at hnd
  exact absurd hnd (List.not_mem_nil nd)

/-
Lookup after an insert of a fresh key.
-/

theorem lookupChain_append_single_ne {K V : Type} (equal : K → K → Bool)
    (q k : K) (v : Option V) (c : List (PolKitHashNode K V))
    (hne : equal q k = false) :
    lookupChain equal q (c ++ [{ key := k, value := v }]) =
      lookupChain equal q c := by
  rw [lookupChain_append]
  by_cases hf : (lookupChain equal q c).2 = true
  · simp [hf]
  · have hf' : (lookupChain equal q c).2 = false := by simpa using hf
    rw [lookupChain_eq_of_snd_false equal q c hf']
    simp [lookupChain, hne]

theorem lookup_insert_fresh_self {K V : Type} (h : PolKitHash K V) (key : K)
    (value : Option V) (hwf : WF h) (hfresh : Fresh h key)
    (hrefl : h.key_equal_func key key = true) (fs : Bool) :
    polkit_hash_lookup (polkit_hash_insert h key value true).2.1 key fs =
      (value, if fs then some true else none) := by
  have hc : insertChain h.key_equal_func h.key_destroy_func h.value_destroy_func
      key value (bucketChain h key) = none :=
    (insertChain_eq_none_iff _ _ _ _ _ _).mpr hfresh
  rw [insert_of_scan_none_alloc h key value hc]
  simp only [polkit_hash_lookup, bucketOf]
  rw [getD_set_self h.top_nodes (h.hash_func key % h.num_top_nodes)
    _ [] (bucketOf_lt h key hwf)]
  rw [lookupChain_append,
    lookupChain_of_all_miss h.key_equal_func key (bucketChain h key) hfresh]
  simp [lookupChain, hrefl]

theorem lookup_insert_fresh_other {K V : Type} (h : PolKitHash K V) (k : K)
    (v : Option V) (q : K) (hwf : WF h) (hfresh : Fresh h k)
    (hne : h.key_equal_func q k = false) (fs : Bool) :
    polkit_hash_lookup (polkit_hash_insert h k v true).2.1 q fs =
      polkit_hash_lookup h q fs := by
  have hc : insertChain h.key_equal_func h.key_destroy_func h.value_destroy_func
      k v (bucketChain h k) = none :=
    (insertChain_eq_none_iff _ _ _ _ _ _).mpr hfresh
  rw [insert_of_scan_none_alloc h k v hc]
  simp only [polkit_hash_lookup, bucketOf]
  by_cases hb : h.hash_func q % h.num_top_nodes = h.hash_func k % h.num_top_nodes
  · rw [hb, getD_set_self h.top_nodes (h.hash_func k % h.num_top_nodes)
      _ [] (bucketOf_lt h k hwf)]
    rw [lookupChain_append_single_ne h.key_equal_func q k v (bucketChain h k) hne]
    rfl
  · rw [getD_set_ne h.top_nodes (h.hash_func k % h.num_top_nodes)
      (h.hash_func q % h.num_top_nodes)
      _ [] (fun e => hb (e.symm))]

/-
Membership in a bucket chain after an insert.
-/

theorem mem_bucketChain_insert {K V : Type} (h : PolKitHash K V) (k : K)
    (v : Option V) (allocOk : Bool) (q : K) (nd : PolKitHashNode K V)
    (hwf : WF h)
    (hmem : nd ∈ bucketChain (polkit_hash_insert h k v allocOk).2.1 q) :
    nd ∈ bucketChain h q ∨ nd = { key := k, value := v } := by
  cases hc : insertChain h.key_equal_func h.key_destroy_func
      h.value_destroy_func k v (bucketChain h k) with
  | some p =>
      obtain ⟨c', ev⟩ := p
      rw [insert_of_scan_some h k v allocOk c' ev hc] at hmem
      obtain ⟨c₁, nd₀, c₂, hchain, hmiss, hhit, hc', hev⟩ :=
        insertChain_eq_some _ _ _ _ _ _ _ _ hc
      simp only [bucketChain, bucketOf] at hmem ⊢
      by_cases hb : h.hash_func q % h.num_top_nodes =
          h.hash_func k % h.num_top_nodes
      · rw [hb, getD_set_self h.top_nodes (h.hash_func k % h.num_top_nodes)
          _ [] (bucketOf_lt h k hwf)] at hmem
        rw [hb]
        rw [hc'] at hmem
        rcases List.mem_append.mp hmem with hm | hm
        · left
          rw [show h.top_nodes.getD (h.hash_func k % h.num_top_nodes) [] =
            bucketChain h k from rfl, hchain]
          exact List.mem_append.mpr (Or.inl hm)
        · rcases List.mem_cons.mp hm with hm' | hm'
          · right; exact hm'
          · left
            rw [show h.top_nodes.getD (h.hash_func k % h.num_top_nodes) [] =
              bucketChain h k from rfl, hchain]
            exact List.mem_append.mpr (Or.inr (List.mem_cons_of_mem _ hm'))
      · rw [getD_set_ne h.top_nodes (h.hash_func k % h.num_top_nodes)
          (h.hash_func q % h.num_top_nodes) _ [] (fun e => hb (e.symm))] at hmem
        exact Or.inl hmem
  | none =>
      cases allocOk with
      | false =>
          rw [insert_of_scan_none_oom h k v hc] at hmem
          exact Or.inl hmem
      | true =>
          rw [insert_of_scan_none_alloc h k v hc] at hmem
          simp only [bucketChain, bucketOf] at hmem ⊢
          by_cases hb : h.hash_func q % h.num_top_nodes =
              h.hash_func k % h.num_top_nodes
          · rw [hb, getD_set_self h.top_nodes (h.hash_func k % h.num_top_nodes)
              _ [] (bucketOf_lt h k hwf)] at hmem
            rw [hb]
            rcases List.mem_append.mp hmem with hm | hm
            · exact Or.inl hm
            · right; simpa using hm
          · rw [getD_set_ne h.top_nodes (h.hash_func k % h.num_top_nodes)
              (h.hash_func q % h.num_top_nodes) _ [] (fun e => hb (e.symm))] at hmem
            exact Or.inl hmem

theorem fresh_insert_other {K V : Type} (h : PolKitHash K V) (k : K)
    (v : Option V) (allocOk : Bool) (q : K) (hwf : WF h) (hq : Fresh h q)
    (hne : h.key_equal_func q k = false) :
    Fresh (polkit_hash_insert h k v allocOk).2.1 q := by
  intro nd hnd
  rw [(insert_fields h k v allocOk).2.2.1]
  rcases mem_bucketChain_insert h k v allocOk q nd hwf hnd with hm | hm
  · exact hq nd hm
  · rw [hm]; exact hne

/-
The lookup behaviour of a sequence of inserts of pairwise distinct keys.
-/

theorem lookup_insertList_untouched {K V : Type} (ps : List (K × Option V)) :
    ∀ (h : PolKitHash K V) (q : K), WF h →
    (∀ p ∈ ps, Fresh h p.1) →
    KeysDistinct h.key_equal_func ps →
    (∀ p ∈ ps, h.key_equal_func q p.1 = false) →
    polkit_hash_lookup (insertList h ps) q true = polkit_hash_lookup h q true := by
  induction ps with
  | nil => intro h q _ _ _ _; rfl
  | cons p rest ih =>
      intro h q hwf hfresh hdist hq
      have hps : Fresh h p.1 := hfresh p (List.mem_cons_self p rest)
      have hfields := insert_fields h p.1 p.2 true
      have hwf' := insert_WF h p.1 p.2 true hwf
      have hstep : insertList h (p :: rest) =
          insertList (polkit_hash_insert h p.1 p.2 true).2.1 rest := rfl
      rw [hstep]
      rw [ih (polkit_hash_insert h p.1 p.2 true).2.1 q hwf'
        (fun p' hp' => fresh_insert_other h p.1 p.2 true p'.1 hwf
          (hfresh p' (List.mem_cons_of_mem _ hp'))
          ((List.pairwise_cons.mp hdist).1 p' hp').2)
        (by
          rw [show (polkit_hash_insert h p.1 p.2 true).2.1.key_equal_func =
            h.key_equal_func from hfields.2.2.1]
          exact (List.pairwise_cons.mp hdist).2)
        (fun p' hp' => by
          rw [show (polkit_hash_insert h p.1 p.2 true).2.1.key_equal_func =
            h.key_equal_func from hfields.2.2.1]
          exact hq p' (List.mem_cons_of_mem _ hp'))]
      exact lookup_insert_fresh_other h p.1 p.2 q hwf hps
        (hq p (List.mem_cons_self p rest)) true

theorem lookup_insertList_get {K V : Type} (ps : List (K × Option V)) :
    ∀ (h : PolKitHash K V), WF h →
    (∀ p ∈ ps, Fresh h p.1) →
    KeysDistinct h.key_equal_func ps →
    (∀ p ∈ ps, h.key_equal_func p.1 p.1 = true) →
    ∀ (i : Nat) (hi : i < ps.length),
    polkit_hash_lookup (insertList h ps) (ps.get ⟨i, hi⟩).1 true =
      ((ps.get ⟨i, hi⟩).2, some true) := by
  induction ps with
  | nil => intro h _ _ _ _ i hi; exact absurd hi (by simp)
  | cons p rest ih =>
      intro h hwf hfresh hdist hrefl i hi
      have hps : Fresh h p.1 := hfresh p (List.mem_cons_self p rest)
      have hfields := insert_fields h p.1 p.2 true
      have hwf' := insert_WF h p.1 p.2 true hwf
      have hfresh' : ∀ p' ∈ rest, Fresh (polkit_hash_insert h p.1 p.2 true).2.1 p'.1 :=
        fun p' hp' => fresh_insert_other h p.1 p.2 true p'.1 hwf
          (hfresh p' (List.mem_cons_of_mem _ hp'))
          ((List.pairwise_cons.mp hdist).1 p' hp').2
      have hdist' : KeysDistinct (polkit_hash_insert h p.1 p.2 true).2.1.key_equal_func rest := by
        rw [show (polkit_hash_insert h p.1 p.2 true).2.1.key_equal_func =
          h.key_equal_func from hfields.2.2.1]
        exact (List.pairwise_cons.mp hdist).2
      cases i with
      | zero =>
          have hstep : insertList h (p :: rest) =
              insertList (polkit_hash_insert h p.1 p.2 true).2.1 rest := rfl
          rw [hstep]
          show polkit_hash_lookup
            (insertList (polkit_hash_insert h p.1 p.2 true).2.1 rest) p.1 true =
            (p.2, some true)
          rw [lookup_insertList_untouched rest (polkit_hash_insert h p.1 p.2 true).2.1
            p.1 hwf' hfresh' hdist'
            (fun p' hp' => by
              rw [show (polkit_hash_insert h p.1 p.2 true).2.1.key_equal_func =
                h.key_equal_func from hfields.2.2.1]
              exact ((List.pairwise_cons.mp hdist).1 p' hp').1)]
          have := lookup_insert_fresh_self h p.1 p.2 hwf hps
            (hrefl p (List.mem_cons_self p rest)) true
          simpa using this
      | succ n =>
          have hstep : insertList h (p :: rest) =
              insertList (polkit_hash_insert h p.1 p.2 true).2.1 rest := rfl
          rw [hstep]
          have hn : n < rest.length := by
            simpa using Nat.lt_of_succ_lt_succ hi
          have := ih (polkit_hash_insert h p.1 p.2 true).2.1 hwf' hfresh' hdist'
            (fun p' hp' => by
              rw [show (polkit_hash_insert h p.1 p.2 true).2.1.key_equal_func =
                h.key_equal_func from hfields.2.2.1]
              exact hrefl p' (List.mem_cons_of_mem _ hp')) n hn
          simpa using this

/-
Claim theorems.
-/

/-- C1: for every sequence of `polkit_hash_insert` calls on one freshly
constructed table whose keys are pairwise distinct under the table's
equality callback (each key equal to itself, as for a genuine equality),
every insert succeeds, and a subsequent `polkit_hash_lookup` of each
inserted key returns that key's most recently inserted value (its unique
one, the keys being distinct) with the found flag set to TRUE. -/
theorem c1_distinct_inserts_lookup {K V : Type} (hash_fn : K → Nat)
    (equal_fn : K → K → Bool) (kd vd : Bool) (ps : List (K × Option V))
    (hdist : KeysDistinct equal_fn ps)
    (hrefl : ∀ p ∈ ps, equal_fn p.1 p.1 = true) :
    insertListAllOk (polkit_hash_new hash_fn equal_fn kd vd) ps = true ∧
    ∀ (i : Nat) (hi : i < ps.length),
      polkit_hash_lookup
        (insertList (polkit_hash_new hash_fn equal_fn kd vd) ps)
        (ps.get ⟨i, hi⟩).1 true = ((ps.get ⟨i, hi⟩).2, some true) := by
  refine ⟨insertListAllOk_eq_true ps _, ?_⟩
  intro i hi
  exact lookup_insertList_get ps (polkit_hash_new hash_fn equal_fn kd vd)
    (WF_new hash_fn equal_fn kd vd)
    (fun p _ => fresh_new hash_fn equal_fn kd vd p.1)
    hdist hrefl i hi

/-- Witness for c1_distinct_inserts_lookup at a concrete three element
insert sequence with a bucket collision (1 and 12 share bucket 1). -/
theorem c1_distinct_inserts_lookup_witness :
    KeysDistinct (fun a b : Nat => a == b)
      [(1, (some 10 : Option Nat)), (2, some 20), (12, some 30)] ∧
    (∀ p ∈ [(1, (some 10 : Option Nat)), (2, some 20), (12, some 30)],
      (p.1 == p.1) = true) ∧
    polkit_hash_lookup
      (insertList (polkit_hash_new (fun k => k) (fun a b => a == b) true true)
        [(1, (some 10 : Option Nat)), (2, some 20), (12, some 30)]) 12 true =
      (some 30, some true) := by
  refine ⟨by decide, by decide, ?_⟩
  exact (c1_distinct_inserts_lookup (fun k => k) (fun a b => a == b) true true
    [(1, some 10), (2, some 20), (12, some 30)] (by decide) (by decide)).2 2
    (by decide)

/-- C2: whenever `polkit_hash_insert` reports failure (which only the
failed node allocation can cause), the table handed back is exactly the
table passed in — no bucket chain modified, no node changed — and the
destructor event trace is empty, so the caller's new key and value were
not destroyed. -/
theorem c2_insert_failure_leaves_table_unchanged {K V : Type}
    (h : PolKitHash K V) (key : K) (value : Option V) (allocOk : Bool)
    (hfail : (polkit_hash_insert h key value allocOk).1 = false) :
    polkit_hash_insert h key value allocOk = (false, h, []) := by
  cases hc : insertChain h.key_equal_func h.key_destroy_func
      h.value_destroy_func key value (bucketChain h key) with
  | some p =>
      obtain ⟨c', ev⟩ := p
      rw [insert_of_scan_some h key value allocOk c' ev hc] at hfail
      simp at hfail
  | none =>
      cases allocOk with
      | true =>
          rw [insert_of_scan_none_alloc h key value hc] at hfail
          simp at hfail
      | false => exact insert_of_scan_none_oom h key value hc

/-- Witness for c2_insert_failure_leaves_table_unchanged: a failed
allocation while inserting key 5 into the empty table. -/
theorem c2_insert_failure_leaves_table_unchanged_witness :
    (polkit_hash_insert baseTable 5 (some 7) false).1 = false ∧
    polkit_hash_insert baseTable 5 (some 7) false = (false, baseTable, []) :=
  ⟨rfl, c2_insert_failure_leaves_table_unchanged baseTable 5 (some 7) false rfl⟩

/-- C3: when the key is already present per the equality callback (lookup
reports found = TRUE), `polkit_hash_insert` takes the replace path: the
chain scan succeeds, the result does not depend on the allocation outcome
(no allocation is performed), and the call returns TRUE. -/
theorem c3_replace_never_fails {K V : Type} (h : PolKitHash K V) (key : K)
    (value : Option V) (allocOk : Bool)
    (hfound : (polkit_hash_lookup h key true).2 = some true) :
    (polkit_hash_insert h key value allocOk).1 = true ∧
    polkit_hash_insert h key value allocOk = polkit_hash_insert h key value true ∧
    (insertChain h.key_equal_func h.key_destroy_func h.value_destroy_func
      key value (bucketChain h key)).isSome = true := by
  have hl : (lookupChain h.key_equal_func key
      (h.top_nodes.getD (bucketOf h key) [])).2 = true := by
    simpa [polkit_hash_lookup] using hfound
  cases hc : insertChain h.key_equal_func h.key_destroy_func
      h.value_destroy_func key value (bucketChain h key) with
  | none =>
      exfalso
      have hmiss := (insertChain_eq_none_iff _ _ _ _ _ _).mp hc
      have hall := lookupChain_of_all_miss h.key_equal_func key
        (bucketChain h key) hmiss
      rw [show bucketChain h key =
        h.top_nodes.getD (bucketOf h key) [] from rfl] at hall
      rw [hall] at hl
      simp at hl
  | some p =>
      obtain ⟨c', ev⟩ := p
      rw [insert_of_scan_some h key value allocOk c' ev hc,
        insert_of_scan_some h key value true c' ev hc]
      simp

/-- Witness for c3_replace_never_fails: re-inserting present key 4 with a
failed allocation still succeeds. -/
theorem c3_replace_never_fails_witness :
    (polkit_hash_lookup tableWith4 4 true).2 = some true ∧
    (polkit_hash_insert tableWith4 4 none false).1 = true := by
  refine ⟨rfl, ?_⟩
  exact (c3_replace_never_fails tableWith4 4 none false rfl).1

/-- C9: the found out parameter of `polkit_hash_lookup` is optional: with
a NULL found pointer the lookup writes no flag and returns exactly the
value it returns when a flag pointer is supplied. -/
theorem c9_lookup_found_optional {K V : Type} (h : PolKitHash K V) (key : K) :
    (polkit_hash_lookup h key false).1 = (polkit_hash_lookup h key true).1 ∧
    (polkit_hash_lookup h key false).2 = none :=
  ⟨rfl, rfl⟩

/-- C6: when `polkit_hash_insert` is called with a key already present —
the chain of its bucket splits as `c₁ ++ nd₀ :: c₂` with the scan missing
on all of `c₁` and matching `nd₀` — the call destroys the old stored key
and then the old stored value of `nd₀` (each exactly once, each only if
the corresponding destructor is set, key before value), overwrites that
node in place with the caller's new key and value, and returns TRUE. -/
theorem c6_replace_destroys_old_then_overwrites {K V : Type}
    (h : PolKitHash K V) (key : K) (value : Option V) (allocOk : Bool)
    (c₁ : List (PolKitHashNode K V)) (nd₀ : PolKitHashNode K V)
    (c₂ : List (PolKitHashNode K V))
    (hchain : bucketChain h key = c₁ ++ nd₀ :: c₂)
    (hmiss : ∀ nd ∈ c₁, h.key_equal_func key nd.key = false)
    (hhit : h.key_equal_func key nd₀.key = true) :
    polkit_hash_insert h key value allocOk =
      (true,
       { h with
           top_nodes := h.top_nodes.set (bucketOf h key)
             (c₁ ++ { key := key, value := value } :: c₂) },
       (if h.key_destroy_func then [DestroyEvent.key nd₀.key] else []) ++
       (if h.value_destroy_func then [DestroyEvent.value nd₀.value] else [])) := by
  have hc : insertChain h.key_equal_func h.key_destroy_func
      h.value_destroy_func key value (bucketChain h key) =
      some (c₁ ++ { key := key, value := value } :: c₂,
        (if h.key_destroy_func then [DestroyEvent.key nd₀.key] else []) ++
        (if h.value_destroy_func then [DestroyEvent.value nd₀.value] else [])) := by
    rw [hchain]
    exact insertChain_of_decomp _ _ _ _ _ _ _ _ hmiss hhit
  exact insert_of_scan_some h key value allocOk _ _ hc

/-- Witness for c6_replace_destroys_old_then_overwrites: replacing key 4
(old value 9) with value 5 fires the key destructor on the old key and
the value destructor on the old value, in that order. -/
theorem c6_replace_destroys_old_then_overwrites_witness :
    bucketChain tableWith4 4 =
      [] ++ ({ key := 4, value := some 9 } : PolKitHashNode Nat Nat) :: [] ∧
    tableWith4.key_equal_func 4 4 = true ∧
    polkit_hash_insert tableWith4 4 (some 5) true =
      (true,
       { tableWith4 with
           top_nodes := tableWith4.top_nodes.set (bucketOf tableWith4 4)
             ([] ++ { key := 4, value := some 5 } :: []) },
       [DestroyEvent.key 4, DestroyEvent.value (some 9)]) := by
  refine ⟨rfl, rfl, ?_⟩
  have hres := c6_replace_destroys_old_then_overwrites tableWith4 4 (some 5)
    true [] { key := 4, value := some 9 } [] rfl
    (fun nd hnd => absurd hnd (List.not_mem_nil nd)) rfl
  exact hres

/-- C8: re-inserting an already present key (lookup reports found = TRUE,
the key equal to itself) with a NULL value succeeds, and a subsequent
lookup of that key returns the NULL value with the found flag TRUE;
whereas lookup of a key matching no node of its bucket returns a NULL
value with the found flag FALSE — so a stored NULL is distinguishable
from not found. -/
theorem c8_null_value_distinguishable_from_missing {K V : Type}
    (h : PolKitHash K V) (key : K) (allocOk : Bool) (hwf : WF h)
    (hrefl : h.key_equal_func key key = true)
    (hfound : (polkit_hash_lookup h key true).2 = some true) :
    (polkit_hash_insert h key none allocOk).1 = true ∧
    polkit_hash_lookup (polkit_hash_insert h key none allocOk).2.1 key true =
      (none, some true) ∧
    (∀ (g : PolKitHash K V) (q : K), Fresh g q →
      polkit_hash_lookup g q true = (none, some false)) := by
  have hl : (lookupChain h.key_equal_func key
      (h.top_nodes.getD (bucketOf h key) [])).2 = true := by
    simpa [polkit_hash_lookup] using hfound
  obtain ⟨c₁, nd₀, c₂, hchain, hmiss, hhit, hval⟩ :=
    lookupChain_found_decomp h.key_equal_func key _ hl
  have hc : insertChain h.key_equal_func h.key_destroy_func
      h.value_destroy_func key none (bucketChain h key) =
      some (c₁ ++ { key := key, value := none } :: c₂,
        (if h.key_destroy_func then [DestroyEvent.key nd₀.key] else []) ++
        (if h.value_destroy_func then [DestroyEvent.value nd₀.value] else [])) := by
    rw [show bucketChain h key =
      h.top_nodes.getD (bucketOf h key) [] from rfl, hchain]
    exact insertChain_of_decomp _ _ _ _ _ _ _ _ hmiss hhit
  refine ⟨?_, ?_, ?_⟩
  · rw [insert_of_scan_some h key none allocOk _ _ hc]
  · rw [insert_of_scan_some h key none allocOk _ _ hc]
    simp only [polkit_hash_lookup, bucketOf]
    rw [getD_set_self h.top_nodes (h.hash_func key % h.num_top_nodes)
      _ [] (bucketOf_lt h key hwf)]
    rw [lookupChain_of_decomp h.key_equal_func key c₁
      { key := key, value := none } c₂ hmiss hrefl]
    simp
  · intro g q hfresh
    have hmissall : lookupChain g.key_equal_func q
        (g.top_nodes.getD (bucketOf g q) []) = (none, false) :=
      lookupChain_of_all_miss g.key_equal_func q (bucketChain g q) hfresh
    have hform : polkit_hash_lookup g q true =
        ((lookupChain g.key_equal_func q (g.top_nodes.getD (bucketOf g q) [])).1,
         some (lookupChain g.key_equal_func q
           (g.top_nodes.getD (bucketOf g q) [])).2) := rfl
    rw [hform, hmissall]

/-- Witness for c8_null_value_distinguishable_from_missing: re-inserting
present key 4 with a NULL value, then looking it up. -/
theorem c8_null_value_distinguishable_from_missing_witness :
    WF tableWith4 ∧
    tableWith4.key_equal_func 4 4 = true ∧
    (polkit_hash_lookup tableWith4 4 true).2 = some true ∧
    polkit_hash_lookup (polkit_hash_insert tableWith4 4 none true).2.1 4 true =
      (none, some true) := by
  refine ⟨⟨by decide, by decide⟩, rfl, rfl, ?_⟩
  exact (c8_null_value_distinguishable_from_missing tableWith4 4 true
    ⟨by decide, by decide⟩ rfl rfl).2.1

/-
Reference counting.
-/

theorem refIter_eq {K V : Type} (n : Nat) :
    ∀ h : PolKitHash K V, refIter n h = { h with refcount := h.refcount + n } := by
  induction n with
  | zero => intro h; rfl
  | succ n ih =>
      intro h
      show refIter n (polkit_hash_ref h) = _
      rw [ih (polkit_hash_ref h)]
      show ({ h with refcount := h.refcount + 1 + n } : PolKitHash K V) =
        { h with refcount := h.refcount + (n + 1) }
      have harith : h.refcount + 1 + n = h.refcount + (n + 1) := by omega
      rw [harith]

theorem unrefIter_alive {K V : Type} (j : Nat) :
    ∀ h : PolKitHash K V, j < h.refcount →
    unrefIter j h = (some { h with refcount := h.refcount - j }, []) := by
  induction j with
  | zero => intro h _; rfl
  | succ j ih =>
      intro h hj
      have h1 : h.refcount - 1 > 0 := by omega
      have hu : polkit_hash_unref h =
          (some { h with refcount := h.refcount - 1 }, []) := by
        simp only [polkit_hash_unref]
        rw [if_pos h1]
      have hj' : j < ({ h with refcount := h.refcount - 1 } :
          PolKitHash K V).refcount := by
        show j < h.refcount - 1
        omega
      have harith : h.refcount - 1 - j = h.refcount - (j + 1) := by omega
      calc unrefIter (j + 1) h
          = ((unrefIter j { h with refcount := h.refcount - 1 }).1,
             ([] : List (DestroyEvent K V)) ++
               (unrefIter j { h with refcount := h.refcount - 1 }).2) := by
            show (match polkit_hash_unref h with
              | (some h', events) =>
                  ((unrefIter j h').1, events ++ (unrefIter j h').2)
              | (none, events) => (none, events)) = _
            rw [hu]
        _ = (some { h with refcount := h.refcount - 1 - j }, []) := by
            rw [ih { h with refcount := h.refcount - 1 } hj']
            rfl
        _ = (some { h with refcount := h.refcount - (j + 1) }, []) := by
            rw [harith]

theorem unrefIter_final {K V : Type} (m : Nat) :
    ∀ h : PolKitHash K V, h.refcount = m + 1 →
    unrefIter (m + 1) h =
      (none, (h.top_nodes.map (chainDestroyEvents h.key_destroy_func
        h.value_destroy_func)).flatten) := by
  induction m with
  | zero =>
      intro h hrc
      have hu : polkit_hash_unref h =
          (none, (h.top_nodes.map (chainDestroyEvents h.key_destroy_func
            h.value_destroy_func)).flatten) := by
        simp only [polkit_hash_unref, hrc]
        norm_num
      simp only [unrefIter]
      rw [hu]
  | succ m ih =>
      intro h hrc
      have h1 : h.refcount - 1 > 0 := by omega
      have hu : polkit_hash_unref h =
          (some { h with refcount := h.refcount - 1 }, []) := by
        simp only [polkit_hash_unref]
        rw [if_pos h1]
      have hrc' : ({ h with refcount := h.refcount - 1 } :
          PolKitHash K V).refcount = m + 1 := by
        show h.refcount - 1 = m + 1
        omega
      calc unrefIter (m + 1 + 1) h
          = ((unrefIter (m + 1) { h with refcount := h.refcount - 1 }).1,
             ([] : List (DestroyEvent K V)) ++
               (unrefIter (m + 1) { h with refcount := h.refcount - 1 }).2) := by
            show (match polkit_hash_unref h with
              | (some h', events) =>
                  ((unrefIter (m + 1) h').1, events ++ (unrefIter (m + 1) h').2)
              | (none, events) => (none, events)) = _
            rw [hu]
        _ = (none, (h.top_nodes.map (chainDestroyEvents h.key_destroy_func
              h.value_destroy_func)).flatten) := by
            rw [ih { h with refcount := h.refcount - 1 } hrc']
            rfl

theorem chainDestroyEvents_both {K V : Type} (c : List (PolKitHashNode K V)) :
    chainDestroyEvents true true c =
      (c.map (fun nd =>
        [DestroyEvent.key nd.key, DestroyEvent.value nd.value])).flatten := by
  induction c with
  | nil => rfl
  | cons nd rest ih => simp [chainDestroyEvents, ih]

theorem destroyTrace_per_node {K V : Type}
    (tops : List (List (PolKitHashNode K V))) :
    (tops.map (chainDestroyEvents true true)).flatten =
      (tops.flatten.map (fun nd =>
        [DestroyEvent.key nd.key, DestroyEvent.value nd.value])).flatten := by
  induction tops with
  | nil => rfl
  | cons c rest ih =>
      simp only [List.map_cons, List.flatten_cons, List.map_append,
        List.flatten_append, chainDestroyEvents_both, ih]

/-- C5: on a table created with refcount 1 on which `polkit_hash_ref` has
been called N times, the first N calls of `polkit_hash_unref` only lower
the refcount — the table stays alive and no destructor runs — while the
(N+1)-th call frees the table and produces the whole destructor trace: for
every live node, in bucket order and chain order, the key destructor then
the value destructor, i.e. (with both destructors set) exactly the per
node trace `[key destroy, value destroy]` flattened over all nodes. -/
theorem c5_destructors_only_at_last_unref {K V : Type}
    (h : PolKitHash K V) (N j : Nat) (hrc : h.refcount = 1) (hj : j ≤ N) :
    unrefIter j (refIter N h) = (some { h with refcount := N + 1 - j }, []) ∧
    unrefIter (N + 1) (refIter N h) =
      (none, (h.top_nodes.map (chainDestroyEvents h.key_destroy_func
        h.value_destroy_func)).flatten) ∧
    (h.key_destroy_func = true → h.value_destroy_func = true →
      (h.top_nodes.map (chainDestroyEvents h.key_destroy_func
        h.value_destroy_func)).flatten =
      (h.top_nodes.flatten.map (fun nd =>
        [DestroyEvent.key nd.key, DestroyEvent.value nd.value])).flatten) := by
  have hri : refIter N h = { h with refcount := h.refcount + N } := refIter_eq N h
  refine ⟨?_, ?_, ?_⟩
  · rw [hri, unrefIter_alive j _ (by
      show j < h.refcount + N
      omega)]
    have harith : h.refcount + N - j = N + 1 - j := by omega
    show (some { h with refcount := h.refcount + N - j }, ([] : List (DestroyEvent K V))) = _
    rw [harith]
  · rw [hri, unrefIter_final N _ (by
      show h.refcount + N = N + 1
      omega)]
  · intro hkd hvd
    rw [hkd, hvd]
    exact destroyTrace_per_node h.top_nodes

/-- Witness for c5_destructors_only_at_last_unref: table holding key 4,
refcount 1, referenced twice; the first two unrefs only count down, the
third runs both destructors once, key before value. -/
theorem c5_destructors_only_at_last_unref_witness :
    tableWith4.refcount = 1 ∧ (2 : Nat) ≤ 2 ∧
    unrefIter 2 (refIter 2 tableWith4) =
      (some { tableWith4 with refcount := 1 }, []) ∧
    unrefIter 3 (refIter 2 tableWith4) =
      (none, [DestroyEvent.key 4, DestroyEvent.value (some 9)]) := by
  have hmain := c5_destructors_only_at_last_unref tableWith4 2 2 rfl (by decide)
  exact ⟨rfl, by decide, hmain.1, hmain.2.1⟩

/-
The action object claims.
-/

/-- C10: `libpolkit_action_get_action_id` returns FALSE and leaves the
out parameter unwritten exactly when no identifier is stored — in
particular right after `libpolkit_action_set_action_id` with a NULL
identifier — and returns TRUE with the stored identifier otherwise;
`libpolkit_action_set_action_id` always replaces the stored identifier
with its argument and frees the previously stored one when there was
one. -/
theorem c10_action_get_set_id (a : PolKitAction) (x : Option String) :
    libpolkit_action_get_action_id a = (a.id.isSome, a.id) ∧
    (libpolkit_action_set_action_id a x).1.id = x ∧
    (libpolkit_action_set_action_id a x).2 = a.id.toList ∧
    libpolkit_action_get_action_id (libpolkit_action_set_action_id a none).1 =
      (false, none) := by
  obtain ⟨rc, oid⟩ := a
  cases oid <;> exact ⟨rfl, rfl, rfl, rfl⟩

/-
The NULL handle claims.
-/

/-- C7 counterexample: `polkit_hash_insert` has no NULL check on its table
handle; called through a NULL handle its first statement dereferences the
handle (`hash->hash_func (key)`), so the call is an unchecked NULL
dereference rather than a reported contract check. -/
theorem c7_counterexample_insert_null_handle :
    polkit_hash_insert_c (none : Option (PolKitHash Nat Nat)) 0 none true =
      CCall.nullDeref := rfl

/-- C7 amended: `polkit_hash_new` (for its callback arguments),
`polkit_hash_ref` and `polkit_hash_unref` guard NULL arguments with
`g_return` style contract checks and return early, but `polkit_hash_insert`
and `polkit_hash_lookup` have no NULL handle check and dereference a NULL
table handle unchecked. -/
theorem c7_null_handle_behaviour {K V : Type} (key : K) (value : Option V)
    (allocOk fs kd vd : Bool) :
    polkit_hash_new_c (K := K) (V := V) none none kd vd =
      CCall.checkFailed none ∧
    polkit_hash_ref_c (K := K) (V := V) none = CCall.checkFailed none ∧
    polkit_hash_unref_c (K := K) (V := V) none = CCall.checkFailed (none, []) ∧
    polkit_hash_insert_c none key value allocOk = CCall.nullDeref ∧
    polkit_hash_lookup_c (V := V) none key fs = CCall.nullDeref :=
  ⟨rfl, rfl, rfl, rfl, rfl⟩

/-
The bucket placement and no duplicate key invariants (claim C4).
-/

theorem getD_replicate_empty_chain {α : Type} (n b : Nat) :
    (List.replicate n ([] : List α)).getD b [] = [] := by
  rcases hx : (List.replicate n ([] : List α))[b]? with _ | c
  · simp [List.getD_eq_getElem?_getD, hx]
  · have hc := List.eq_of_mem_replicate (List.getElem?_mem hx)
    simp [List.getD_eq_getElem?_getD, hx, hc]

theorem placed_new {K V : Type} (hash_fn : K → Nat) (equal_fn : K → K → Bool)
    (kd vd : Bool) : Placed (polkit_hash_new (V := V) hash_fn equal_fn kd vd) := by
  intro b nd hnd
  rw [show (polkit_hash_new (V := V) hash_fn equal_fn kd vd).top_nodes =
    List.replicate 11 [] from rfl, getD_replicate_empty_chain 11 b] at hnd
  exact absurd hnd (List.not_mem_nil nd)

theorem nodup_new {K V : Type} (hash_fn : K → Nat) (equal_fn : K → K → Bool)
    (kd vd : Bool) : TableNoDup (polkit_hash_new (V := V) hash_fn equal_fn kd vd) := by
  intro b
  show ChainNoDup equal_fn ((List.replicate 11 []).getD b [])
  rw [getD_replicate_empty_chain 11 b]
  exact List.Pairwise.nil

theorem insert_preserves_placed {K V : Type} (h : PolKitHash K V) (key : K)
    (value : Option V) (allocOk : Bool) (hwf : WF h) (hpl : Placed h) :
    Placed (polkit_hash_insert h key value allocOk).2.1 := by
  have hblt := bucketOf_lt h key hwf
  cases hc : insertChain h.key_equal_func h.key_destroy_func
      h.value_destroy_func key value (bucketChain h key) with
  | some p =>
      obtain ⟨c', ev⟩ := p
      obtain ⟨c₁, nd₀, c₂, hchain, hmiss, hhit, hc', hev⟩ :=
        insertChain_eq_some _ _ _ _ _ _ _ _ hc
      rw [insert_of_scan_some h key value allocOk c' ev hc]
      intro b nd hnd
      show h.hash_func nd.key % h.num_top_nodes = b
      have hnd' : nd ∈ (h.top_nodes.set (bucketOf h key) c').getD b [] := hnd
      by_cases hbk : b = bucketOf h key
      · subst hbk
        rw [getD_set_self h.top_nodes (bucketOf h key) c' [] hblt, hc'] at hnd'
        rcases List.mem_append.mp hnd' with hm | hm
        · exact hpl (bucketOf h key) nd
            (by rw [show h.top_nodes.getD (bucketOf h key) [] =
              bucketChain h key from rfl, hchain]
                exact List.mem_append.mpr (Or.inl hm))
        · rcases List.mem_cons.mp hm with hm' | hm'
          · rw [hm']
            rfl
          · exact hpl (bucketOf h key) nd
              (by rw [show h.top_nodes.getD (bucketOf h key) [] =
                bucketChain h key from rfl, hchain]
                  exact List.mem_append.mpr
                    (Or.inr (List.mem_cons_of_mem _ hm')))
      · rw [getD_set_ne h.top_nodes (bucketOf h key) b c' []
          (fun e => hbk (e.symm))] at hnd'
        exact hpl b nd hnd'
  | none =>
      cases allocOk with
      | false =>
          rw [insert_of_scan_none_oom h key value hc]
          exact hpl
      | true =>
          rw [insert_of_scan_none_alloc h key value hc]
          intro b nd hnd
          show h.hash_func nd.key % h.num_top_nodes = b
          have hnd' : nd ∈ (h.top_nodes.set (bucketOf h key)
              (bucketChain h key ++ [{ key := key, value := value }])).getD b [] := hnd
          by_cases hbk : b = bucketOf h key
          · subst hbk
            rw [getD_set_self h.top_nodes (bucketOf h key) _ [] hblt] at hnd'
            rcases List.mem_append.mp hnd' with hm | hm
            · exact hpl (bucketOf h key) nd hm
            · rw [show nd = { key := key, value := value } from by simpa using hm]
              rfl
          · rw [getD_set_ne h.top_nodes (bucketOf h key) b _ []
              (fun e => hbk (e.symm))] at hnd'
            exact hpl b nd hnd'

theorem chainNoDup_replace {K V : Type} (equal : K → K → Bool)
    (hsymm : ∀ a b, equal a b = equal b a)
    (htrans : ∀ a b c, equal a b = true → equal b c = true → equal a c = true)
    (key : K) (value : Option V) (c₁ : List (PolKitHashNode K V))
    (nd₀ : PolKitHashNode K V) (c₂ : List (PolKitHashNode K V))
    (hnd : ChainNoDup equal (c₁ ++ nd₀ :: c₂))
    (hmiss : ∀ nd ∈ c₁, equal key nd.key = false)
    (hhit : equal key nd₀.key = true) :
    ChainNoDup equal (c₁ ++ { key := key, value := value } :: c₂) := by
  unfold ChainNoDup at hnd ⊢
  rw [List.pairwise_append] at hnd ⊢
  obtain ⟨h1, h2, h12⟩ := hnd
  obtain ⟨h20, h2t⟩ := List.pairwise_cons.mp h2
  refine ⟨h1, ?_, ?_⟩
  · rw [List.pairwise_cons]
    refine ⟨?_, h2t⟩
    intro a ha
    have hn0a : equal nd₀.key a.key = false := (h20 a ha).1
    constructor
    · cases heq : equal key a.key with
      | false => rfl
      | true =>
          exfalso
          have hsk : equal nd₀.key key = true := by rw [hsymm]; exact hhit
          have : equal nd₀.key a.key = true := htrans nd₀.key key a.key hsk heq
          rw [this] at hn0a
          exact absurd hn0a (by simp)
    · cases heq : equal a.key key with
      | false => rfl
      | true =>
          exfalso
          have h1t : equal key a.key = true := by rw [hsymm]; exact heq
          have hsk : equal nd₀.key key = true := by rw [hsymm]; exact hhit
          have : equal nd₀.key a.key = true := htrans nd₀.key key a.key hsk h1t
          rw [this] at hn0a
          exact absurd hn0a (by simp)
  · intro a ha bb hbb
    rcases List.mem_cons.mp hbb with h' | h'
    · rw [h']
      refine ⟨?_, hmiss a ha⟩
      show equal a.key key = false
      rw [hsymm]
      exact hmiss a ha
    · exact h12 a ha bb (List.mem_cons_of_mem _ h')

theorem chainNoDup_append_fresh {K V : Type} (equal : K → K → Bool)
    (hsymm : ∀ a b, equal a b = equal b a)
    (key : K) (value : Option V) (c : List (PolKitHashNode K V))
    (hnd : ChainNoDup equal c)
    (hmiss : ∀ nd ∈ c, equal key nd.key = false) :
    ChainNoDup equal (c ++ [{ key := key, value := value }]) := by
  unfold ChainNoDup at hnd ⊢
  rw [List.pairwise_append]
  refine ⟨hnd, List.pairwise_singleton _ _, ?_⟩
  intro a ha bb hbb
  rw [show bb = { key := key, value := value } from by simpa using hbb]
  refine ⟨?_, hmiss a ha⟩
  show equal a.key key = false
  rw [hsymm]
  exact hmiss a ha

theorem insert_preserves_nodup {K V : Type} (h : PolKitHash K V) (key : K)
    (value : Option V) (allocOk : Bool) (hwf : WF h) (hnd : TableNoDup h)
    (hsymm : ∀ a b, h.key_equal_func a b = h.key_equal_func b a)
    (htrans : ∀ a b c, h.key_equal_func a b = true →
      h.key_equal_func b c = true → h.key_equal_func a c = true) :
    TableNoDup (polkit_hash_insert h key value allocOk).2.1 := by
  have hblt := bucketOf_lt h key hwf
  cases hc : insertChain h.key_equal_func h.key_destroy_func
      h.value_destroy_func key value (bucketChain h key) with
  | some p =>
      obtain ⟨c', ev⟩ := p
      obtain ⟨c₁, nd₀, c₂, hchain, hmiss, hhit, hc', hev⟩ :=
        insertChain_eq_some _ _ _ _ _ _ _ _ hc
      rw [insert_of_scan_some h key value allocOk c' ev hc]
      intro b
      show ChainNoDup h.key_equal_func
        ((h.top_nodes.set (bucketOf h key) c').getD b [])
      by_cases hbk : b = bucketOf h key
      · subst hbk
        rw [getD_set_self h.top_nodes (bucketOf h key) c' [] hblt, hc']
        have hold : ChainNoDup h.key_equal_func (c₁ ++ nd₀ :: c₂) := by
          have := hnd (bucketOf h key)
          rw [show h.top_nodes.getD (bucketOf h key) [] =
            bucketChain h key from rfl, hchain] at this
          exact this
        exact chainNoDup_replace h.key_equal_func hsymm htrans key value
          c₁ nd₀ c₂ hold hmiss hhit
      · rw [getD_set_ne h.top_nodes (bucketOf h key) b c' []
          (fun e => hbk (e.symm))]
        exact hnd b
  | none =>
      have hmiss := (insertChain_eq_none_iff _ _ _ _ _ _).mp hc
      cases allocOk with
      | false =>
          rw [insert_of_scan_none_oom h key value hc]
          exact hnd
      | true =>
          rw [insert_of_scan_none_alloc h key value hc]
          intro b
          show ChainNoDup h.key_equal_func
            ((h.top_nodes.set (bucketOf h key)
              (bucketChain h key ++ [{ key := key, value := value }])).getD b [])
          by_cases hbk : b = bucketOf h key
          · subst hbk
            rw [getD_set_self h.top_nodes (bucketOf h key) _ [] hblt]
            exact chainNoDup_append_fresh h.key_equal_func hsymm key value
              (bucketChain h key) (hnd (bucketOf h key)) hmiss
          · rw [getD_set_ne h.top_nodes (bucketOf h key) b _ []
              (fun e => hbk (e.symm))]
            exact hnd b

theorem insertList_fields {K V : Type} (ps : List (K × Option V)) :
    ∀ h : PolKitHash K V,
    (insertList h ps).num_top_nodes = h.num_top_nodes ∧
    (insertList h ps).hash_func = h.hash_func ∧
    (insertList h ps).key_equal_func = h.key_equal_func := by
  induction ps with
  | nil => intro h; exact ⟨rfl, rfl, rfl⟩
  | cons p rest ih =>
      intro h
      have h1 := ih (polkit_hash_insert h p.1 p.2 true).2.1
      have h2 := insert_fields h p.1 p.2 true
      exact ⟨h1.1.trans h2.1, h1.2.1.trans h2.2.1, h1.2.2.trans h2.2.2.1⟩

theorem insertList_inv {K V : Type} (ps : List (K × Option V)) :
    ∀ h : PolKitHash K V, WF h → Placed h → TableNoDup h →
    (∀ a b, h.key_equal_func a b = h.key_equal_func b a) →
    (∀ a b c, h.key_equal_func a b = true → h.key_equal_func b c = true →
      h.key_equal_func a c = true) →
    WF (insertList h ps) ∧ Placed (insertList h ps) ∧
      TableNoDup (insertList h ps) := by
  induction ps with
  | nil => intro h hwf hpl hnd _ _; exact ⟨hwf, hpl, hnd⟩
  | cons p rest ih =>
      intro h hwf hpl hnd hsymm htrans
      have hfields := insert_fields h p.1 p.2 true
      apply ih
      · exact insert_WF h p.1 p.2 true hwf
      · exact insert_preserves_placed h p.1 p.2 true hwf hpl
      · exact insert_preserves_nodup h p.1 p.2 true hwf hnd hsymm htrans
      · rw [hfields.2.2.1]; exact hsymm
      · rw [hfields.2.2.1]; exact htrans

/-- C4: in every table reachable from construction by successful inserts
(with the equality callback a genuine equality — symmetric and transitive
— that is compatible with the hash callback), every live node sits in the
bucket given by the hash of its key modulo the bucket count, and no two
distinct node occurrences — same bucket or different buckets — carry keys
the equality callback relates: every present key occurs in exactly one
bucket exactly once. -/
theorem c4_bucket_placement_and_no_duplicates {K V : Type}
    (hash_fn : K → Nat) (equal_fn : K → K → Bool) (kd vd : Bool)
    (ps : List (K × Option V))
    (hsymm : ∀ a b, equal_fn a b = equal_fn b a)
    (htrans : ∀ a b c, equal_fn a b = true → equal_fn b c = true →
      equal_fn a c = true)
    (hcompat : ∀ a b, equal_fn a b = true → hash_fn a % 11 = hash_fn b % 11) :
    Placed (tableFromInserts hash_fn equal_fn kd vd ps) ∧
    (∀ (b1 b2 i1 i2 : Nat)
       (hi1 : i1 < ((tableFromInserts hash_fn equal_fn kd vd
         ps).top_nodes.getD b1 []).length)
       (hi2 : i2 < ((tableFromInserts hash_fn equal_fn kd vd
         ps).top_nodes.getD b2 []).length),
       ¬(b1 = b2 ∧ i1 = i2) →
       equal_fn (((tableFromInserts hash_fn equal_fn kd vd
           ps).top_nodes.getD b1 []).get ⟨i1, hi1⟩).key
         (((tableFromInserts hash_fn equal_fn kd vd
           ps).top_nodes.getD b2 []).get ⟨i2, hi2⟩).key = false) := by
  obtain ⟨hwf', hpl', hnd'⟩ := insertList_inv ps
    (polkit_hash_new (V := V) hash_fn equal_fn kd vd)
    (WF_new hash_fn equal_fn kd vd) (placed_new hash_fn equal_fn kd vd)
    (nodup_new hash_fn equal_fn kd vd) hsymm htrans
  have hnum : (tableFromInserts hash_fn equal_fn kd vd ps).num_top_nodes = 11 :=
    (insertList_fields ps (polkit_hash_new (V := V) hash_fn equal_fn kd vd)).1
  have hhf : (tableFromInserts hash_fn equal_fn kd vd ps).hash_func = hash_fn :=
    (insertList_fields ps (polkit_hash_new (V := V) hash_fn equal_fn kd vd)).2.1
  have heqf : (tableFromInserts hash_fn equal_fn kd vd ps).key_equal_func =
      equal_fn :=
    (insertList_fields ps (polkit_hash_new (V := V) hash_fn equal_fn kd vd)).2.2
  refine ⟨hpl', ?_⟩
  intro b1 b2 i1 i2 hi1 hi2 hne
  by_cases hb : b1 = b2
  · subst hb
    have hii : i1 ≠ i2 := fun e => hne ⟨rfl, e⟩
    have hchain : ChainNoDup equal_fn
        ((tableFromInserts hash_fn equal_fn kd vd ps).top_nodes.getD b1 []) := by
      have := hnd' b1
      rw [show (insertList (polkit_hash_new (V := V) hash_fn equal_fn kd vd)
        ps).key_equal_func = equal_fn from heqf] at this
      exact this
    have hpg := List.pairwise_iff_get.mp hchain
    rcases Nat.lt_or_ge i1 i2 with hlt | hge
    · exact (hpg ⟨i1, hi1⟩ ⟨i2, hi2⟩ hlt).1
    · have hlt : i2 < i1 := Nat.lt_of_le_of_ne hge (fun e => hii e.symm)
      exact (hpg ⟨i2, hi2⟩ ⟨i1, hi1⟩ hlt).2
  · cases heq : equal_fn (((tableFromInserts hash_fn equal_fn kd vd
        ps).top_nodes.getD b1 []).get ⟨i1, hi1⟩).key
        (((tableFromInserts hash_fn equal_fn kd vd
        ps).top_nodes.getD b2 []).get ⟨i2, hi2⟩).key with
    | false => rfl
    | true =>
        exfalso
        have hmem1 := List.get_mem ((tableFromInserts hash_fn equal_fn kd vd
          ps).top_nodes.getD b1 []) i1 hi1
        have hmem2 := List.get_mem ((tableFromInserts hash_fn equal_fn kd vd
          ps).top_nodes.getD b2 []) i2 hi2
        have h1 := hpl' b1 _ hmem1
        have h2 := hpl' b2 _ hmem2
        rw [show (insertList (polkit_hash_new (V := V) hash_fn equal_fn kd vd)
          ps).hash_func = hash_fn from hhf,
          show (insertList (polkit_hash_new (V := V) hash_fn equal_fn kd vd)
          ps).num_top_nodes = 11 from hnum] at h1 h2
        exact hb ((h1.symm.trans (hcompat _ _ heq)).trans h2)

/-- Witness for c4_bucket_placement_and_no_duplicates: three keys from
Fin 3 with boolean equality and the value of the key as hash. -/
theorem c4_bucket_placement_and_no_duplicates_witness :
    (∀ a b : Fin 3, (a == b) = (b == a)) ∧
    (∀ a b c : Fin 3, (a == b) = true → (b == c) = true → (a == c) = true) ∧
    (∀ a b : Fin 3, (a == b) = true → a.val % 11 = b.val % 11) ∧
    Placed (tableFromInserts (fun a : Fin 3 => a.val) (fun a b => a == b)
      false false [((0 : Fin 3), (some 1 : Option Nat)), (1, some 2),
        (2, some 3)]) := by
  refine ⟨by decide, by decide, by decide, ?_⟩
  exact (c4_bucket_placement_and_no_duplicates (fun a : Fin 3 => a.val)
    (fun a b => a == b) false false
    [((0 : Fin 3), (some 1 : Option Nat)), (1, some 2), (2, some 3)]
    (by decide) (by decide) (by decide)).1
